import Mathlib

/-!
Verification of the EVT 3.0 streaming decoder (evt3-core).

The definitions below are a shallow embedding of `src/evt3-core/src/parser.rs`,
`src/evt3-core/src/types.rs` and `src/evt3-core/src/decoder.rs`.  Machine
integers are modelled as `Nat`; the only place where fixed-width overflow can
occur on realizable inputs is the `u16` addition `current_base_x + count` in
`process_vector_events`, which is modelled with an explicit `% 2^16`.  The
caller-supplied `Vec` sinks are modelled as lists threaded through the
functions, with `Vec::push` modelled as appending one element.
-/

/-- Decoded change-detection event (struct `CdEvent` in types.rs). -/
structure CdEvent where
  x : Nat
  y : Nat
  polarity : Nat
  timestamp : Nat
deriving DecidableEq, Repr

/-- Decoded external trigger event (struct `TriggerEvent` in types.rs). -/
structure TriggerEvent where
  value : Nat
  id : Nat
  timestamp : Nat
deriving DecidableEq, Repr

/-- The EVT 3.0 raw event types (enum `RawEventType` in types.rs). -/
inductive RawEventType where
  | addrY
  | addrX
  | vectBaseX
  | vect12
  | vect8
  | timeLow
  | continued4
  | timeHigh
  | extTrigger
  | others
  | continued12
deriving DecidableEq, Repr

/-- `RawEventType::from_u8`: partial decoding of a 4-bit tag. -/
def RawEventType.from_u8 (value : Nat) : Option RawEventType :=
  if value = 0x0 then some .addrY
  else if value = 0x2 then some .addrX
  else if value = 0x3 then some .vectBaseX
  else if value = 0x4 then some .vect12
  else if value = 0x5 then some .vect8
  else if value = 0x6 then some .timeLow
  else if value = 0x7 then some .continued4
  else if value = 0x8 then some .timeHigh
  else if value = 0xA then some .extTrigger
  else if value = 0xE then some .others
  else if value = 0xF then some .continued12
  else none

/-- `parser::get_event_type`: the 4-bit type tag of a word. -/
def get_event_type (word : Nat) : Nat :=
  (word >>> 12) &&& 0xF

/-- `parser::addr_y_get_y`: bits 10:0. -/
def addr_y_get_y (word : Nat) : Nat :=
  word &&& 0x07FF

/-- `parser::addr_x_get_x`: bits 10:0. -/
def addr_x_get_x (word : Nat) : Nat :=
  word &&& 0x07FF

/-- `parser::addr_x_get_polarity`: bit 11. -/
def addr_x_get_polarity (word : Nat) : Nat :=
  (word >>> 11) &&& 0x1

/-- `parser::vect_base_x_get_x`: bits 10:0. -/
def vect_base_x_get_x (word : Nat) : Nat :=
  word &&& 0x07FF

/-- `parser::vect_base_x_get_polarity`: bit 11. -/
def vect_base_x_get_polarity (word : Nat) : Nat :=
  (word >>> 11) &&& 0x1

/-- `parser::vect_12_get_valid`: bits 11:0. -/
def vect_12_get_valid (word : Nat) : Nat :=
  word &&& 0x0FFF

/-- `parser::vect_8_get_valid`: bits 7:0. -/
def vect_8_get_valid (word : Nat) : Nat :=
  word &&& 0x00FF

/-- `parser::time_get_value`: bits 11:0 of a TIME_LOW or TIME_HIGH word. -/
def time_get_value (word : Nat) : Nat :=
  word &&& 0x0FFF

/-- `parser::ext_trigger_get_id`: bits 11:8. -/
def ext_trigger_get_id (word : Nat) : Nat :=
  (word >>> 8) &&& 0x0F

/-- `parser::ext_trigger_get_value`: bit 0. -/
def ext_trigger_get_value (word : Nat) : Nat :=
  word &&& 0x01

/-- Constant `MAX_TIMESTAMP_BASE` of decoder.rs (16773120). -/
def MAX_TIMESTAMP_BASE : Nat := ((1 <<< 12) - 1) <<< 12

/-- Constant `TIME_LOOP` of decoder.rs (16777216). -/
def TIME_LOOP : Nat := MAX_TIMESTAMP_BASE + (1 <<< 12)

/-- Constant `LOOP_THRESHOLD` of decoder.rs (40960). -/
def LOOP_THRESHOLD : Nat := 10 <<< 12

/-- The mutable state of `Evt3Decoder` (decoder.rs).  The `metadata` field of
the Rust struct is inlined as the `width` and `height` fields. -/
structure DecoderState where
  time_base : Nat
  time_low : Nat
  current_time : Nat
  n_time_high_loops : Nat
  first_time_base_set : Bool
  current_y : Nat
  current_base_x : Nat
  current_polarity : Nat
  width : Nat
  height : Nat
deriving DecidableEq, Repr

/-- `Evt3Decoder::new`: default state, with the default 1280x720 metadata. -/
def initDecoder : DecoderState :=
  { time_base := 0
    time_low := 0
    current_time := 0
    n_time_high_loops := 0
    first_time_base_set := false
    current_y := 0
    current_base_x := 0
    current_polarity := 0
    width := 1280
    height := 720 }

/-- `Evt3Decoder::reset`: clears all cursor and clock state, keeps metadata. -/
def reset (s : DecoderState) : DecoderState :=
  { s with
    time_base := 0
    time_low := 0
    current_time := 0
    n_time_high_loops := 0
    first_time_base_set := false
    current_y := 0
    current_base_x := 0
    current_polarity := 0 }

/-- `Evt3Decoder::process_time_high`: TIME_HIGH handling with loop detection.
All the `u64` arithmetic of the source is modelled on `Nat`. -/
def process_time_high (s : DecoderState) (word : Nat) : DecoderState :=
  let time_val := time_get_value word
  let base0 := (time_val <<< 12) + s.n_time_high_loops * TIME_LOOP
  if s.time_base > base0 ∧ s.time_base - base0 ≥ MAX_TIMESTAMP_BASE - LOOP_THRESHOLD then
    { s with
      time_base := base0 + TIME_LOOP
      current_time := base0 + TIME_LOOP
      n_time_high_loops := s.n_time_high_loops + 1 }
  else
    { s with time_base := base0, current_time := base0 }

/-- The loop `for x in current_base_x..end_x` of `process_vector_events`,
with `fuel = end_x - current_base_x` iterations (a Rust range `a..b` iterates
`b - a` times when `a ≤ b` and zero times otherwise).  Each push appends to
the sink accumulator `cd`. -/
def vector_loop : Nat → Nat → Nat → Nat → Nat → Nat → List CdEvent → List CdEvent
  | 0, _, _, _, _, _, cd => cd
  | fuel + 1, x, valid, y, pol, t, cd =>
      vector_loop fuel (x + 1) (valid >>> 1) y pol t
        (if valid &&& 0x1 ≠ 0 then cd ++ [⟨x, y, pol, t⟩] else cd)

/-- `Evt3Decoder::process_vector_events`.  The `u16` addition
`end_x = current_base_x + count` is modelled with its wrap-around `% 2^16`. -/
def process_vector_events (s : DecoderState) (valid : Nat) (count : Nat)
    (cd : List CdEvent) : DecoderState × List CdEvent :=
  let end_x := (s.current_base_x + count) % 65536
  ({ s with current_base_x := end_x },
   vector_loop (end_x - s.current_base_x) s.current_base_x valid
     s.current_y s.current_polarity s.current_time cd)

/-- One iteration of the main match of `Evt3Decoder::decode_buffer`
(the armed phase): dispatch on the decoded event type of one word. -/
def process_word (s : DecoderState) (w : Nat) (cd : List CdEvent)
    (tr : List TriggerEvent) : DecoderState × List CdEvent × List TriggerEvent :=
  match RawEventType.from_u8 (get_event_type w) with
  | some .addrX =>
      (s, cd ++ [⟨addr_x_get_x w, s.current_y, addr_x_get_polarity w, s.current_time⟩], tr)
  | some .vect12 =>
      let r := process_vector_events s (vect_12_get_valid w) 12 cd
      (r.1, r.2, tr)
  | some .vect8 =>
      let r := process_vector_events s (vect_8_get_valid w) 8 cd
      (r.1, r.2, tr)
  | some .addrY =>
      ({ s with current_y := addr_y_get_y w }, cd, tr)
  | some .vectBaseX =>
      ({ s with
         current_base_x := vect_base_x_get_x w
         current_polarity := vect_base_x_get_polarity w }, cd, tr)
  | some .timeHigh =>
      (process_time_high s w, cd, tr)
  | some .timeLow =>
      ({ s with
         time_low := time_get_value w
         current_time := s.time_base + time_get_value w }, cd, tr)
  | some .extTrigger =>
      (s, cd, tr ++ [⟨ext_trigger_get_value w, ext_trigger_get_id w, s.current_time⟩])
  | some .continued4 => (s, cd, tr)
  | some .others => (s, cd, tr)
  | some .continued12 => (s, cd, tr)
  | none => (s, cd, tr)

/-- The armed phase of `decode_buffer`: fold `process_word` over the words. -/
def decode_words : DecoderState → List Nat → List CdEvent → List TriggerEvent →
    DecoderState × List CdEvent × List TriggerEvent
  | s, [], cd, tr => (s, cd, tr)
  | s, w :: ws, cd, tr =>
      let r := process_word s w cd tr
      decode_words r.1 ws r.2.1 r.2.2

/-- The pre-roll loop of `decode_buffer`: discard words until the first
TIME_HIGH, arm the decoder on it, and return the remaining words. -/
def skipPreroll : DecoderState → List Nat → DecoderState × List Nat
  | s, [] => (s, [])
  | s, w :: ws =>
      if get_event_type w = 8 then
        ({ s with
           time_base := (time_get_value w) <<< 12
           current_time := (time_get_value w) <<< 12
           first_time_base_set := true }, ws)
      else skipPreroll s ws

/-- `Evt3Decoder::decode_buffer`: pre-roll until the first TIME_HIGH if the
decoder is not yet armed, then process the remaining words. -/
def decode_buffer (s : DecoderState) (words : List Nat) (cd : List CdEvent)
    (tr : List TriggerEvent) : DecoderState × List CdEvent × List TriggerEvent :=
  if s.first_time_base_set then decode_words s words cd tr
  else
    let r := skipPreroll s words
    decode_words r.1 r.2 cd tr

/-- Population count of a natural number (number of set bits); used to state
the event-count property of the vector words. -/
def popcount : Nat → Nat
  | 0 => 0
  | n + 1 => popcount ((n + 1) / 2) + (n + 1) % 2
decreasing_by omega

/-- Decidable check that, starting from state `s`, every word of the list
keeps `current_time` non-decreasing when processed (time words that jump
backwards make this false; all other words never change `current_time`). -/
def timeMonotoneFrom (s : DecoderState) : List Nat → Bool
  | [] => true
  | w :: ws =>
      let s' := (process_word s w [] []).1
      decide (s.current_time ≤ s'.current_time) && timeMonotoneFrom s' ws

/-- The state after processing one word (sink contents do not influence it). -/
def stepState (s : DecoderState) (w : Nat) : DecoderState :=
  (process_word s w [] []).1

/-- The CD events emitted while processing one word. -/
def stepCd (s : DecoderState) (w : Nat) : List CdEvent :=
  (process_word s w [] []).2.1

/-- The trigger events emitted while processing one word. -/
def stepTr (s : DecoderState) (w : Nat) : List TriggerEvent :=
  (process_word s w [] []).2.2

/-- `str::trim_end` on a character list: drop trailing whitespace. -/
def trimEnd (l : List Char) : List Char :=
  (l.reverse.dropWhile Char.isWhitespace).reverse

/-- `str::strip_prefix` on character lists. -/
def stripPrefixChars : List Char → List Char → Option (List Char)
  | [], l => some l
  | _ :: _, [] => none
  | p :: ps, c :: cs => if p = c then stripPrefixChars ps cs else none

/-- `str::split(sep)` on a character list; like Rust, the empty input yields
one empty piece and adjacent separators yield empty pieces. -/
def splitOnChar (sep : Char) : List Char → List (List Char)
  | [] => [[]]
  | c :: cs =>
      if c = sep then [] :: splitOnChar sep cs
      else
        match splitOnChar sep cs with
        | [] => [[c]]
        | h :: t => (c :: h) :: t

/-- Models Rust `str::parse::<u32>`: an optional leading plus sign followed
by one or more ASCII decimal digits, with the value required to fit in
32 bits. -/
def parseU32 (l : List Char) : Option Nat :=
  let digits := match l with
    | '+' :: rest => rest
    | _ => l
  if digits ≠ [] ∧ digits.all Char.isDigit then
    let v := digits.foldl (fun acc c => acc * 10 + (c.toNat - 48)) 0
    if v < 4294967296 then some v else none
  else none

/-- The characters of the header marker for format lines. -/
def fmtMarker : List Char := ['%', ' ', 'f', 'o', 'r', 'm', 'a', 't', ' ']

/-- The characters of the header marker for geometry lines. -/
def geomMarker : List Char := ['%', ' ', 'g', 'e', 'o', 'm', 'e', 't', 'r', 'y', ' ']

/-- The characters of the header marker for version lines. -/
def evtMarker : List Char := ['%', ' ', 'e', 'v', 't', ' ']

/-- The characters of the width key of format lines. -/
def widthKey : List Char := ['w', 'i', 'd', 't', 'h']

/-- The characters of the height key of format lines. -/
def heightKey : List Char := ['h', 'e', 'i', 'g', 'h', 't']

/-- `Evt3Decoder::parse_header_line`: updates the metadata fields from one
header line.  The version branch of the source only compares the version
string and changes nothing, so it collapses to the identity here. -/
def parse_header_line (s : DecoderState) (line : List Char) : DecoderState :=
  let line := trimEnd line
  match stripPrefixChars fmtMarker line with
  | some format_str =>
      (splitOnChar ';' format_str).foldl (fun st part =>
        match part.findIdx? (· = '=') with
        | some idx =>
            let name := part.take idx
            let value := part.drop (idx + 1)
            if name = widthKey then
              match parseU32 value with
              | some w => { st with width := w }
              | none => st
            else if name = heightKey then
              match parseU32 value with
              | some h => { st with height := h }
              | none => st
            else st
        | none => st) s
  | none =>
      match stripPrefixChars geomMarker line with
      | some geometry_str =>
          match geometry_str.findIdx? (· = 'x') with
          | some idx =>
              match parseU32 (geometry_str.take idx),
                    parseU32 (geometry_str.drop (idx + 1)) with
              | some w, some h => { s with width := w, height := h }
              | _, _ => s
          | none => s
      | none => s

/-! ### Structural lemmas about the vector loop -/

/-- The vector loop appends, in order of increasing offset, one event per set
bit of the mask, with coordinates advancing from the start column. -/
theorem vector_loop_spec (n : Nat) : ∀ (x v y p t : Nat) (cd : List CdEvent),
    vector_loop n x v y p t cd =
      cd ++ ((List.range n).filter (fun i => v.testBit i)).map
        (fun i => ⟨x + i, y, p, t⟩) := by
  induction n with
  | zero => intro x v y p t cd; simp [vector_loop]
  | succ n ih =>
      intro x v y p t cd
      rw [vector_loop, ih, List.range_succ_eq_map, List.filter_cons, List.filter_map]
      have hsucc : ((fun i => v.testBit i) ∘ Nat.succ) = fun i => (v >>> 1).testBit i := by
        funext i
        simp [Function.comp, Nat.testBit_succ, Nat.shiftRight_one]
      rw [hsucc]
      have hmap : (List.map (fun i => (⟨x + 1 + i, y, p, t⟩ : CdEvent))
            ((List.range n).filter (fun i => (v >>> 1).testBit i))) =
          List.map ((fun i => (⟨x + i, y, p, t⟩ : CdEvent)) ∘ Nat.succ)
            ((List.range n).filter (fun i => (v >>> 1).testBit i)) := by
        apply List.map_congr_left
        intro i _
        simp [Function.comp, CdEvent.mk.injEq]
        omega
      rcases Nat.mod_two_eq_zero_or_one v with h | h
      · have h1 : ¬ (v &&& 0x1 ≠ 0) := by simp [Nat.and_one_is_mod, h]
        have h2 : v.testBit 0 = false := by simp [Nat.testBit_zero, h]
        simp only [if_neg h1, h2, Bool.false_eq_true, if_false, List.map_map, hmap]
      · have h1 : v &&& 0x1 ≠ 0 := by simp [Nat.and_one_is_mod, h]
        have h2 : v.testBit 0 = true := by simp [Nat.testBit_zero, h]
        simp only [if_pos h1, h2, if_true, List.map_cons, List.map_map, hmap]
        simp

/-- Unfolding of `popcount` valid for every argument. -/
theorem popcount_div2 (v : Nat) : popcount v = popcount (v / 2) + v % 2 := by
  cases v with
  | zero => simp [popcount]
  | succ n => rw [popcount]

/-- Counting the set bits below `n` of a number smaller than `2 ^ n` gives
its population count. -/
theorem length_filter_testBit : ∀ (n v : Nat), v < 2 ^ n →
    ((List.range n).filter (fun i => v.testBit i)).length = popcount v := by
  intro n
  induction n with
  | zero =>
      intro v hv
      have : v = 0 := by simpa using hv
      subst this
      simp [popcount]
  | succ n ih =>
      intro v hv
      rw [List.range_succ_eq_map, List.filter_cons, List.filter_map]
      have hsucc : ((fun i => v.testBit i) ∘ Nat.succ) = fun i => (v / 2).testBit i := by
        funext i
        simp [Function.comp, Nat.testBit_succ]
      rw [hsucc]
      have hv2 : v / 2 < 2 ^ n := by
        rw [Nat.div_lt_iff_lt_mul (by norm_num)]
        rw [pow_succ] at hv
        omega
      have hlen := ih (v / 2) hv2
      rw [popcount_div2]
      rcases Nat.mod_two_eq_zero_or_one v with h | h
      · have h2 : v.testBit 0 = false := by simp [Nat.testBit_zero, h]
        simp only [h2, Bool.false_eq_true, if_false, List.length_map, h]
        omega
      · have h2 : v.testBit 0 = true := by simp [Nat.testBit_zero, h]
        simp only [h2, if_true, List.length_cons, List.length_map, h]
        omega

/-! ### Frame lemmas: every push only appends to the sinks -/

/-- Processing one word appends the emitted events to the given sinks; what
is emitted does not depend on the previous sink contents. -/
theorem process_word_eq (s : DecoderState) (w : Nat) (cd : List CdEvent)
    (tr : List TriggerEvent) :
    process_word s w cd tr = (stepState s w, cd ++ stepCd s w, tr ++ stepTr s w) := by
  unfold stepState stepCd stepTr
  cases h : RawEventType.from_u8 (get_event_type w) with
  | none => simp [process_word, h]
  | some t =>
      cases t <;> simp [process_word, h, process_vector_events, vector_loop_spec]

/-- Unfolding of `decode_words` on a first word, in terms of the per-word
step functions. -/
theorem decode_words_cons (s : DecoderState) (w : Nat) (ws : List Nat)
    (cd : List CdEvent) (tr : List TriggerEvent) :
    decode_words s (w :: ws) cd tr =
      decode_words (stepState s w) ws (cd ++ stepCd s w) (tr ++ stepTr s w) := by
  rw [decode_words, process_word_eq]

/-- The armed phase only appends to the sinks, and the appended events do not
depend on the previous sink contents. -/
theorem decode_words_frame : ∀ (ws : List Nat) (s : DecoderState)
    (cd : List CdEvent) (tr : List TriggerEvent),
    decode_words s ws cd tr =
      ((decode_words s ws [] []).1, cd ++ (decode_words s ws [] []).2.1,
       tr ++ (decode_words s ws [] []).2.2) := by
  intro ws
  induction ws with
  | nil => intro s cd tr; simp [decode_words]
  | cons w ws ih =>
      intro s cd tr
      rw [decode_words_cons, ih (stepState s w) (cd ++ stepCd s w) (tr ++ stepTr s w),
        decode_words_cons s w ws [] []]
      simp only [List.nil_append]
      rw [ih (stepState s w) (stepCd s w) (stepTr s w)]
      simp

/-- Splitting the word list of the armed phase at any point is invisible. -/
theorem decode_words_append : ∀ (a : List Nat) (b : List Nat) (s : DecoderState)
    (cd : List CdEvent) (tr : List TriggerEvent),
    decode_words s (a ++ b) cd tr =
      decode_words (decode_words s a cd tr).1 b (decode_words s a cd tr).2.1
        (decode_words s a cd tr).2.2 := by
  intro a
  induction a with
  | nil => intro b s cd tr; simp [decode_words]
  | cons w a ih =>
      intro b s cd tr
      rw [List.cons_append, decode_words_cons, decode_words_cons,
        ih b (stepState s w) (cd ++ stepCd s w) (tr ++ stepTr s w)]

/-! ### State bookkeeping lemmas -/

/-- TIME_HIGH handling never touches the cursor, flag or metadata fields. -/
theorem process_time_high_fields (s : DecoderState) (w : Nat) :
    (process_time_high s w).first_time_base_set = s.first_time_base_set ∧
    (process_time_high s w).current_y = s.current_y ∧
    (process_time_high s w).current_base_x = s.current_base_x ∧
    (process_time_high s w).current_polarity = s.current_polarity ∧
    (process_time_high s w).width = s.width ∧
    (process_time_high s w).height = s.height := by
  unfold process_time_high
  dsimp only
  split <;> exact ⟨rfl, rfl, rfl, rfl, rfl, rfl⟩

/-- Processing a word never changes the armed flag. -/
theorem stepState_flag (s : DecoderState) (w : Nat) :
    (stepState s w).first_time_base_set = s.first_time_base_set := by
  unfold stepState
  cases h : RawEventType.from_u8 (get_event_type w) with
  | none => simp [process_word, h]
  | some t =>
      cases t <;>
        simp [process_word, h, process_vector_events, (process_time_high_fields s w).1]

/-- The armed phase never changes the armed flag. -/
theorem decode_words_flag : ∀ (ws : List Nat) (s : DecoderState)
    (cd : List CdEvent) (tr : List TriggerEvent),
    (decode_words s ws cd tr).1.first_time_base_set = s.first_time_base_set := by
  intro ws
  induction ws with
  | nil => intro s cd tr; simp [decode_words]
  | cons w ws ih =>
      intro s cd tr
      rw [decode_words_cons, ih, stepState_flag]

/-- The pre-roll loop drops all words when none of them is a TIME_HIGH. -/
theorem skipPreroll_not_found : ∀ (ws : List Nat) (s : DecoderState),
    (∀ w ∈ ws, get_event_type w ≠ 8) → skipPreroll s ws = (s, []) := by
  intro ws
  induction ws with
  | nil => intro s _; rfl
  | cons w ws ih =>
      intro s h
      rw [skipPreroll, if_neg (h w (List.mem_cons_self w ws))]
      exact ih s fun u hu => h u (List.mem_cons_of_mem w hu)

/-- The pre-roll loop arms the decoder on the first TIME_HIGH word and hands
back exactly the words after it. -/
theorem skipPreroll_found : ∀ (a : List Nat) (thw : Nat) (b : List Nat)
    (s : DecoderState), (∀ w ∈ a, get_event_type w ≠ 8) → get_event_type thw = 8 →
    skipPreroll s (a ++ thw :: b) =
      ({ s with
         time_base := (time_get_value thw) <<< 12
         current_time := (time_get_value thw) <<< 12
         first_time_base_set := true }, b) := by
  intro a
  induction a with
  | nil =>
      intro thw b s _ hth
      rw [List.nil_append, skipPreroll, if_pos hth]
  | cons w a ih =>
      intro thw b s h hth
      rw [List.cons_append, skipPreroll, if_neg (h w (List.mem_cons_self w a))]
      exact ih thw b s (fun u hu => h u (List.mem_cons_of_mem w hu)) hth

/-- How the pre-roll loop behaves on a concatenation, keyed on whether the
first chunk already armed the decoder. -/
theorem skipPreroll_append : ∀ (a b : List Nat) (s : DecoderState),
    s.first_time_base_set = false →
    skipPreroll s (a ++ b) =
      (if (skipPreroll s a).1.first_time_base_set then
        ((skipPreroll s a).1, (skipPreroll s a).2 ++ b)
      else skipPreroll s b) := by
  intro a
  induction a with
  | nil => intro b s hf; simp [skipPreroll, hf]
  | cons w a ih =>
      intro b s hf
      by_cases h8 : get_event_type w = 8
      · simp [skipPreroll, h8]
      · rw [List.cons_append, skipPreroll, if_neg h8, skipPreroll, if_neg h8]
        exact ih b s hf

/-- If the pre-roll loop did not arm the decoder, it consumed everything and
changed nothing. -/
theorem skipPreroll_flag_false : ∀ (a : List Nat) (s : DecoderState),
    s.first_time_base_set = false →
    (skipPreroll s a).1.first_time_base_set = false → skipPreroll s a = (s, []) := by
  intro a
  induction a with
  | nil => intro s _ _; rfl
  | cons w a ih =>
      intro s hf hres
      by_cases h8 : get_event_type w = 8
      · rw [skipPreroll, if_pos h8] at hres
        simp at hres
      · rw [skipPreroll, if_neg h8] at hres ⊢
        exact ih s hf hres

/-- `decode_buffer` is insensitive to chunking: decoding a concatenation in
one call agrees with decoding the two chunks in two calls on the same
decoder and sinks. -/
theorem decode_buffer_append (s : DecoderState) (a b : List Nat)
    (cd : List CdEvent) (tr : List TriggerEvent) :
    decode_buffer s (a ++ b) cd tr =
      decode_buffer (decode_buffer s a cd tr).1 b (decode_buffer s a cd tr).2.1
        (decode_buffer s a cd tr).2.2 := by
  by_cases hf : s.first_time_base_set
  · have h1 : (decode_words s a cd tr).1.first_time_base_set = true := by
      rw [decode_words_flag]; exact hf
    simp only [decode_buffer, if_pos hf, if_pos h1, decode_words_append]
  · have hf' : s.first_time_base_set = false := by simpa using hf
    by_cases hA : (skipPreroll s a).1.first_time_base_set
    · have hflag : (decode_words (skipPreroll s a).1 (skipPreroll s a).2 cd tr).1.first_time_base_set = true := by
        rw [decode_words_flag]; exact hA
      simp only [decode_buffer, if_neg hf, skipPreroll_append a b s hf', if_pos hA,
        if_pos hflag, decode_words_append]
    · have hsp := skipPreroll_flag_false a s hf' (by simpa using hA)
      simp only [decode_buffer, if_neg hf, skipPreroll_append a b s hf', if_neg hA, hsp]
      simp [decode_words, if_neg hf]

/-- `decode_buffer` only appends to its sinks, and the appended events do
not depend on the previous sink contents. -/
theorem decode_buffer_frame (s : DecoderState) (ws : List Nat)
    (cd : List CdEvent) (tr : List TriggerEvent) :
    decode_buffer s ws cd tr =
      ((decode_buffer s ws [] []).1, cd ++ (decode_buffer s ws [] []).2.1,
       tr ++ (decode_buffer s ws [] []).2.2) := by
  by_cases hf : s.first_time_base_set
  · simp only [decode_buffer, if_pos hf]
    exact decode_words_frame ws s cd tr
  · simp only [decode_buffer, if_neg hf]
    exact decode_words_frame _ _ cd tr

/-! ### Metadata is never read or written by the decoding loop -/

/-- TIME_HIGH handling commutes with changing the metadata fields. -/
theorem process_time_high_meta (s : DecoderState) (a b w : Nat) :
    process_time_high { s with width := a, height := b } w =
      { process_time_high s w with width := a, height := b } := by
  unfold process_time_high
  dsimp only
  split <;> rfl

/-- Processing a word commutes with changing the metadata fields. -/
theorem process_word_meta (s : DecoderState) (a b w : Nat) (cd : List CdEvent)
    (tr : List TriggerEvent) :
    process_word { s with width := a, height := b } w cd tr =
      ({ (process_word s w cd tr).1 with width := a, height := b },
       (process_word s w cd tr).2.1, (process_word s w cd tr).2.2) := by
  cases h : RawEventType.from_u8 (get_event_type w) with
  | none => simp [process_word, h]
  | some t =>
      cases t <;> simp [process_word, h, process_vector_events, process_time_high_meta]

/-- The armed phase commutes with changing the metadata fields. -/
theorem decode_words_meta : ∀ (ws : List Nat) (s : DecoderState) (a b : Nat)
    (cd : List CdEvent) (tr : List TriggerEvent),
    decode_words { s with width := a, height := b } ws cd tr =
      ({ (decode_words s ws cd tr).1 with width := a, height := b },
       (decode_words s ws cd tr).2.1, (decode_words s ws cd tr).2.2) := by
  intro ws
  induction ws with
  | nil => intro s a b cd tr; simp [decode_words]
  | cons w ws ih =>
      intro s a b cd tr
      rw [decode_words, decode_words, process_word_meta]
      exact ih (process_word s w cd tr).1 a b (process_word s w cd tr).2.1
        (process_word s w cd tr).2.2

/-- The pre-roll loop commutes with changing the metadata fields. -/
theorem skipPreroll_meta : ∀ (ws : List Nat) (s : DecoderState) (a b : Nat),
    skipPreroll { s with width := a, height := b } ws =
      ({ (skipPreroll s ws).1 with width := a, height := b }, (skipPreroll s ws).2) := by
  intro ws
  induction ws with
  | nil => intro s a b; rfl
  | cons w ws ih =>
      intro s a b
      by_cases h8 : get_event_type w = 8
      · rw [skipPreroll, if_pos h8, skipPreroll, if_pos h8]
      · rw [skipPreroll, if_neg h8, skipPreroll, if_neg h8]
        exact ih s a b

/-- `decode_buffer` commutes with changing the metadata fields: the metadata
never influences decoding and is never modified by it. -/
theorem decode_buffer_meta (s : DecoderState) (a b : Nat) (ws : List Nat)
    (cd : List CdEvent) (tr : List TriggerEvent) :
    decode_buffer { s with width := a, height := b } ws cd tr =
      ({ (decode_buffer s ws cd tr).1 with width := a, height := b },
       (decode_buffer s ws cd tr).2.1, (decode_buffer s ws cd tr).2.2) := by
  by_cases hf : s.first_time_base_set
  · have : ({ s with width := a, height := b } : DecoderState).first_time_base_set = true := hf
    simp only [decode_buffer, if_pos hf, if_pos this, decode_words_meta]
  · have : ¬ ({ s with width := a, height := b } : DecoderState).first_time_base_set = true := hf
    simp only [decode_buffer, if_neg hf, if_neg this, skipPreroll_meta, decode_words_meta]

/-! ### Emission shape lemmas -/

/-- Every CD event emitted while processing one word carries the
`current_time` of the state at that moment. -/
theorem stepCd_timestamp (s : DecoderState) (w : Nat) :
    ∀ e ∈ stepCd s w, e.timestamp = s.current_time := by
  intro e he
  unfold stepCd at he
  cases h : RawEventType.from_u8 (get_event_type w) with
  | none => simp [process_word, h] at he
  | some t =>
      cases t <;>
        simp only [process_word, h, process_vector_events, vector_loop_spec,
          List.nil_append, List.mem_map, List.mem_singleton, List.not_mem_nil] at he
      case addrX => subst he; rfl
      case vect12 => obtain ⟨i, _, rfl⟩ := he; rfl
      case vect8 => obtain ⟨i, _, rfl⟩ := he; rfl

/-- Every CD event emitted while processing one word respects the field
bounds: row and polarity as current in the state, column below `2 ^ 16`. -/
theorem stepCd_bounds (s : DecoderState) (w : Nat)
    (hy : s.current_y ≤ 2047) (hp : s.current_polarity ≤ 1) :
    ∀ e ∈ stepCd s w, e.y ≤ 2047 ∧ e.polarity ≤ 1 ∧ e.x ≤ 65535 := by
  intro e he
  unfold stepCd at he
  cases h : RawEventType.from_u8 (get_event_type w) with
  | none => simp [process_word, h] at he
  | some t =>
      cases t <;>
        simp only [process_word, h, process_vector_events, vector_loop_spec,
          List.nil_append, List.mem_map, List.mem_singleton, List.not_mem_nil] at he
      case addrX =>
        subst he
        refine ⟨hy, ?_, ?_⟩
        · exact Nat.and_le_right
        · calc addr_x_get_x w ≤ 0x07FF := Nat.and_le_right
            _ ≤ 65535 := by norm_num
      case vect12 =>
        obtain ⟨i, hi, rfl⟩ := he
        rw [List.mem_filter, List.mem_range] at hi
        refine ⟨hy, hp, ?_⟩
        have hend : (s.current_base_x + 12) % 65536 < 65536 := Nat.mod_lt _ (by norm_num)
        show s.current_base_x + i ≤ 65535
        omega
      case vect8 =>
        obtain ⟨i, hi, rfl⟩ := he
        rw [List.mem_filter, List.mem_range] at hi
        refine ⟨hy, hp, ?_⟩
        have hend : (s.current_base_x + 8) % 65536 < 65536 := Nat.mod_lt _ (by norm_num)
        show s.current_base_x + i ≤ 65535
        omega

/-- Processing a word keeps the row below `2 ^ 11` and the polarity below 2. -/
theorem stepState_cursor_bounds (s : DecoderState) (w : Nat)
    (hy : s.current_y ≤ 2047) (hp : s.current_polarity ≤ 1) :
    (stepState s w).current_y ≤ 2047 ∧ (stepState s w).current_polarity ≤ 1 := by
  unfold stepState
  cases h : RawEventType.from_u8 (get_event_type w) with
  | none => simpa [process_word, h] using ⟨hy, hp⟩
  | some t =>
      cases t <;>
        simp only [process_word, h, process_vector_events,
          (process_time_high_fields s w).2.1, (process_time_high_fields s w).2.2.2.1]
      case addrY => exact ⟨Nat.and_le_right, hp⟩
      case addrX => exact ⟨hy, hp⟩
      case vectBaseX => exact ⟨hy, Nat.and_le_right⟩
      case vect12 => exact ⟨hy, hp⟩
      case vect8 => exact ⟨hy, hp⟩
      case timeLow => exact ⟨hy, hp⟩
      case timeHigh => exact ⟨(process_time_high_fields s w).2.1 ▸ hy,
        (process_time_high_fields s w).2.2.2.1 ▸ hp⟩
      case continued4 => exact ⟨hy, hp⟩
      case continued12 => exact ⟨hy, hp⟩
      case extTrigger => exact ⟨hy, hp⟩
      case others => exact ⟨hy, hp⟩

/-- A list of CD events that all carry one timestamp is pairwise
non-decreasing in timestamps. -/
theorem pairwise_of_const_timestamp (l : List CdEvent) (t : Nat)
    (h : ∀ e ∈ l, e.timestamp = t) :
    List.Pairwise (fun a b => a.timestamp ≤ b.timestamp) l := by
  induction l with
  | nil => exact List.Pairwise.nil
  | cons e l ih =>
      constructor
      · intro b hb
        rw [h e (List.mem_cons_self e l), h b (List.mem_cons_of_mem e hb)]
      · exact ih fun u hu => h u (List.mem_cons_of_mem e hu)

/-- Invariant of the armed phase: if every word keeps `current_time`
non-decreasing, the CD sink stays sorted by timestamp and bounded by the
final `current_time`. -/
theorem decode_words_mono : ∀ (ws : List Nat) (s : DecoderState)
    (cd : List CdEvent) (tr : List TriggerEvent),
    timeMonotoneFrom s ws = true →
    (∀ e ∈ cd, e.timestamp ≤ s.current_time) →
    List.Pairwise (fun a b => a.timestamp ≤ b.timestamp) cd →
    List.Pairwise (fun a b => a.timestamp ≤ b.timestamp) (decode_words s ws cd tr).2.1 ∧
    ∀ e ∈ (decode_words s ws cd tr).2.1,
      e.timestamp ≤ (decode_words s ws cd tr).1.current_time := by
  intro ws
  induction ws with
  | nil =>
      intro s cd tr _ hub hpw
      exact ⟨hpw, hub⟩
  | cons w ws ih =>
      intro s cd tr hmono hub hpw
      rw [timeMonotoneFrom, Bool.and_eq_true, decide_eq_true_eq] at hmono
      obtain ⟨hstep, hrest⟩ := hmono
      have hstep' : s.current_time ≤ (stepState s w).current_time := hstep
      rw [decode_words_cons]
      have hub' : ∀ e ∈ cd ++ stepCd s w, e.timestamp ≤ (stepState s w).current_time := by
        intro e he
        rcases List.mem_append.mp he with h | h
        · exact le_trans (hub e h) hstep'
        · rw [stepCd_timestamp s w e h]
          exact hstep'
      have hpw' : List.Pairwise (fun a b => a.timestamp ≤ b.timestamp) (cd ++ stepCd s w) := by
        rw [List.pairwise_append]
        refine ⟨hpw, pairwise_of_const_timestamp _ s.current_time (stepCd_timestamp s w), ?_⟩
        intro a ha b hb
        rw [stepCd_timestamp s w b hb]
        exact hub a ha
      exact ih (stepState s w) (cd ++ stepCd s w) (tr ++ stepTr s w) hrest hub' hpw'

/-- Invariant of the armed phase: with the row and polarity cursors in range,
every CD event ever emitted respects the field bounds. -/
theorem decode_words_bounds : ∀ (ws : List Nat) (s : DecoderState)
    (cd : List CdEvent) (tr : List TriggerEvent),
    s.current_y ≤ 2047 → s.current_polarity ≤ 1 →
    (∀ e ∈ cd, e.y ≤ 2047 ∧ e.polarity ≤ 1 ∧ e.x ≤ 65535) →
    ∀ e ∈ (decode_words s ws cd tr).2.1, e.y ≤ 2047 ∧ e.polarity ≤ 1 ∧ e.x ≤ 65535 := by
  intro ws
  induction ws with
  | nil => intro s cd tr _ _ hcd; simpa [decode_words] using hcd
  | cons w ws ih =>
      intro s cd tr hy hp hcd
      rw [decode_words_cons]
      refine ih (stepState s w) (cd ++ stepCd s w) (tr ++ stepTr s w)
        (stepState_cursor_bounds s w hy hp).1 (stepState_cursor_bounds s w hy hp).2 ?_
      intro e he
      rcases List.mem_append.mp he with h | h
      · exact hcd e h
      · exact stepCd_bounds s w hy hp e h

/-- The pre-roll loop never touches the cursor fields. -/
theorem skipPreroll_cursor : ∀ (ws : List Nat) (s : DecoderState),
    (skipPreroll s ws).1.current_y = s.current_y ∧
    (skipPreroll s ws).1.current_polarity = s.current_polarity ∧
    (skipPreroll s ws).1.current_base_x = s.current_base_x := by
  intro ws
  induction ws with
  | nil => intro s; exact ⟨rfl, rfl, rfl⟩
  | cons w ws ih =>
      intro s
      by_cases h8 : get_event_type w = 8
      · rw [skipPreroll, if_pos h8]
        exact ⟨rfl, rfl, rfl⟩
      · rw [skipPreroll, if_neg h8]
        exact ih s

/-! ### Per-word characterizations used by the functional claims -/

/-- On an armed decoder, a one-word buffer is processed by exactly one
dispatch step. -/
theorem decode_buffer_single (s : DecoderState) (w : Nat)
    (hs : s.first_time_base_set = true) :
    decode_buffer s [w] [] [] = (stepState s w, stepCd s w, stepTr s w) := by
  rw [decode_buffer, if_pos hs, decode_words_cons]
  simp [decode_words]

/-- A vector word with an all-zero mask emits nothing. -/
theorem vector_loop_zero (n : Nat) : ∀ (x y p t : Nat) (cd : List CdEvent),
    vector_loop n x 0 y p t cd = cd := by
  intro x y p t cd
  rw [vector_loop_spec]
  simp [Nat.zero_testBit]

/-- A run of VECT_12 words whose masks are all zero only advances the base
column, by 12 per word modulo `2 ^ 16`. -/
theorem decode_words_replicate_vect12 : ∀ (n : Nat) (s : DecoderState)
    (cd : List CdEvent) (tr : List TriggerEvent), s.current_base_x < 65536 →
    decode_words s (List.replicate n 0x4000) cd tr =
      ({ s with current_base_x := (s.current_base_x + 12 * n) % 65536 }, cd, tr) := by
  intro n
  induction n with
  | zero =>
      intro s cd tr hb
      simp [decode_words, List.replicate, Nat.mod_eq_of_lt hb]
  | succ n ih =>
      intro s cd tr hb
      rw [List.replicate_succ, decode_words_cons]
      have hstate : stepState s 0x4000 =
          { s with current_base_x := (s.current_base_x + 12) % 65536 } := rfl
      have hcd : stepCd s 0x4000 = [] := by
        unfold stepCd process_word
        simp only [show RawEventType.from_u8 (get_event_type 0x4000) =
          some RawEventType.vect12 from rfl]
        simp [process_vector_events, vector_loop_zero,
          show vect_12_get_valid 0x4000 = 0 from rfl]
      have htr : stepTr s 0x4000 = [] := rfl
      rw [hstate, hcd, htr, List.append_nil, List.append_nil]
      rw [ih { s with current_base_x := (s.current_base_x + 12) % 65536 } cd tr
        (Nat.mod_lt _ (by norm_num))]
      have harith : ((s.current_base_x + 12) % 65536 + 12 * n) % 65536 =
          (s.current_base_x + 12 * (n + 1)) % 65536 := by
        rw [Nat.mod_add_mod]
        congr 1
        ring
      rw [harith]

theorem stepCd_other_types (s : DecoderState) (w : Nat)
    (h2 : get_event_type w ≠ 2) (h4 : get_event_type w ≠ 4) (h5 : get_event_type w ≠ 5) :
    stepCd s w = [] := by
  have hlt : get_event_type w ≤ 15 := Nat.and_le_right
  unfold stepCd process_word
  generalize hg : get_event_type w = g at h2 h4 h5 hlt ⊢
  interval_cases g <;>
    first
      | rfl
      | exact absurd rfl h2
      | exact absurd rfl h4
      | exact absurd rfl h5

/-- Characterization of one ADDR_X step: exactly one CD event, from the
word's own column and polarity and the cursor row and clock. -/
theorem step_addrX (s : DecoderState) (w : Nat) (h : get_event_type w = 2) :
    stepCd s w = [⟨addr_x_get_x w, s.current_y, addr_x_get_polarity w, s.current_time⟩] := by
  have hfu : RawEventType.from_u8 (get_event_type w) = some .addrX := by rw [h]; decide
  unfold stepCd process_word
  rw [hfu]
  rfl

/-- Characterization of one VECT_12 step without column overflow: one CD
event per set mask bit, offsets increasing, and the base column advanced by
exactly 12. -/
theorem step_vect12 (s : DecoderState) (w : Nat) (h : get_event_type w = 4)
    (hov : s.current_base_x + 12 ≤ 65535) :
    stepCd s w = ((List.range 12).filter (fun i => (vect_12_get_valid w).testBit i)).map
        (fun i => ⟨s.current_base_x + i, s.current_y, s.current_polarity, s.current_time⟩) ∧
    (stepState s w).current_base_x = s.current_base_x + 12 := by
  have hfu : RawEventType.from_u8 (get_event_type w) = some .vect12 := by rw [h]; decide
  have hmod : (s.current_base_x + 12) % 65536 = s.current_base_x + 12 :=
    Nat.mod_eq_of_lt (by omega)
  unfold stepCd stepState process_word
  rw [hfu]
  constructor
  · show (process_vector_events s (vect_12_get_valid w) 12 []).2 = _
    unfold process_vector_events
    dsimp only
    rw [hmod, Nat.add_sub_cancel_left, vector_loop_spec, List.nil_append]
  · show (process_vector_events s (vect_12_get_valid w) 12 []).1.current_base_x = _
    unfold process_vector_events
    dsimp only
    rw [hmod]

/-- Characterization of one VECT_8 step without column overflow. -/
theorem step_vect8 (s : DecoderState) (w : Nat) (h : get_event_type w = 5)
    (hov : s.current_base_x + 8 ≤ 65535) :
    stepCd s w = ((List.range 8).filter (fun i => (vect_8_get_valid w).testBit i)).map
        (fun i => ⟨s.current_base_x + i, s.current_y, s.current_polarity, s.current_time⟩) ∧
    (stepState s w).current_base_x = s.current_base_x + 8 := by
  have hfu : RawEventType.from_u8 (get_event_type w) = some .vect8 := by rw [h]; decide
  have hmod : (s.current_base_x + 8) % 65536 = s.current_base_x + 8 :=
    Nat.mod_eq_of_lt (by omega)
  unfold stepCd stepState process_word
  rw [hfu]
  constructor
  · show (process_vector_events s (vect_8_get_valid w) 8 []).2 = _
    unfold process_vector_events
    dsimp only
    rw [hmod, Nat.add_sub_cancel_left, vector_loop_spec, List.nil_append]
  · show (process_vector_events s (vect_8_get_valid w) 8 []).1.current_base_x = _
    unfold process_vector_events
    dsimp only
    rw [hmod]

/-- Characterization of one TIME_HIGH step: the state is updated by the loop
detection logic and nothing is emitted. -/
theorem step_timeHigh (s : DecoderState) (w : Nat) (h : get_event_type w = 8) :
    stepState s w = process_time_high s w ∧ stepCd s w = [] ∧ stepTr s w = [] := by
  have hfu : RawEventType.from_u8 (get_event_type w) = some .timeHigh := by rw [h]; decide
  unfold stepState stepCd stepTr process_word
  rw [hfu]
  exact ⟨rfl, rfl, rfl⟩

/-- Stripping a prefix from a list that starts with it returns the tail. -/
theorem stripPrefixChars_self_append : ∀ (p l : List Char),
    stripPrefixChars p (p ++ l) = some l := by
  intro p
  induction p with
  | nil => intro l; rfl
  | cons c p ih =>
      intro l
      rw [List.cons_append, stripPrefixChars, if_pos rfl]
      exact ih l

/-! ### Claim theorems -/

/-- Claim C1, counterexample: after arming (TIME_HIGH 0), the words
TIME_LOW 100, ADDR_X, TIME_LOW 50, ADDR_X make the decoder emit CD events
with timestamps 100 then 50 — a strictly decreasing pair — so the emitted CD
timestamps are not non-decreasing for every input once a TIME_HIGH has been
processed: a TIME_LOW whose payload goes backwards lowers `current_time` and
the decoder emits it as is. -/
theorem C1_counterexample :
    ((decode_buffer initDecoder [0x8000, 0x6064, 0x2864, 0x6032, 0x2864] [] []).2.1).map
        (fun e => e.timestamp) = [100, 50] ∧
    ¬ List.Pairwise (fun a b => a.timestamp ≤ b.timestamp)
        (decode_buffer initDecoder [0x8000, 0x6064, 0x2864, 0x6032, 0x2864] [] []).2.1 := by
  decide

/-- Claim C1, amended: for an armed decoder, when every word of the input
keeps `current_time` non-decreasing (that is, no TIME_LOW or TIME_HIGH word
jumps the reconstructed clock backwards, checked by `timeMonotoneFrom`), the
CD events pushed into the sink have non-decreasing timestamps. -/
theorem C1_cd_timestamps_nondecreasing (s : DecoderState) (ws : List Nat)
    (hs : s.first_time_base_set = true) (hmono : timeMonotoneFrom s ws = true) :
    List.Pairwise (fun a b => a.timestamp ≤ b.timestamp)
      (decode_buffer s ws [] []).2.1 := by
  rw [decode_buffer, if_pos hs]
  exact (decode_words_mono ws s [] [] hmono (by simp) List.Pairwise.nil).1

/-- Claim C1, witness: a concrete armed decoder and a concrete time-monotone
word list satisfying the hypotheses of the amended theorem. -/
theorem C1_witness :
    ({ initDecoder with first_time_base_set := true } : DecoderState).first_time_base_set = true ∧
    timeMonotoneFrom { initDecoder with first_time_base_set := true }
      [0x6064, 0x2864, 0x6065, 0x2864] = true ∧
    List.Pairwise (fun a b => a.timestamp ≤ b.timestamp)
      (decode_buffer { initDecoder with first_time_base_set := true }
        [0x6064, 0x2864, 0x6065, 0x2864] [] []).2.1 :=
  ⟨rfl, by decide,
    C1_cd_timestamps_nondecreasing { initDecoder with first_time_base_set := true }
      [0x6064, 0x2864, 0x6065, 0x2864] rfl (by decide)⟩

/-- Claim C2, counterexample: in the armed state with `current_base_x =
65530` (reachable, see the column-overflow theorem) a VECT_12 word with the
full mask 0xFFF emits zero CD events instead of `popcount 0xFFF = 12`, and
`current_base_x` wraps to 6 instead of increasing by 12: the `u16` addition
`current_base_x + 12` overflows. -/
theorem C2_counterexample :
    (decode_buffer { initDecoder with first_time_base_set := true, current_base_x := 65530 }
        [0x4FFF] [] []).2.1.length = 0 ∧
    popcount (vect_12_get_valid 0x4FFF) = 12 ∧
    (decode_buffer { initDecoder with first_time_base_set := true, current_base_x := 65530 }
        [0x4FFF] [] []).1.current_base_x = 6 := by
  refine ⟨by decide, ?_, by decide⟩
  have h := length_filter_testBit 12 (vect_12_get_valid 0x4FFF) (by decide)
  rw [← h]
  decide

/-- Claim C2, amended: on an armed decoder whose base column does not
overflow `u16` when advanced, a VECT_12 word emits, in order of increasing
offset, one CD event per set bit of its 12-bit mask — so exactly
`popcount valid` events, each `⟨current_base_x + i, current_y,
current_polarity, current_time⟩` — and advances `current_base_x` by exactly
12; the analogous property holds for VECT_8 with an 8-bit mask and an
advance of 8; an ADDR_X word emits exactly one CD event and every other
word type emits none. -/
theorem C2_word_emissions (s : DecoderState) (w : Nat)
    (hs : s.first_time_base_set = true) :
    (get_event_type w = 4 → s.current_base_x + 12 ≤ 65535 →
      (decode_buffer s [w] [] []).2.1 =
        ((List.range 12).filter (fun i => (vect_12_get_valid w).testBit i)).map
          (fun i => ⟨s.current_base_x + i, s.current_y, s.current_polarity, s.current_time⟩) ∧
      (decode_buffer s [w] [] []).2.1.length = popcount (vect_12_get_valid w) ∧
      (decode_buffer s [w] [] []).1.current_base_x = s.current_base_x + 12) ∧
    (get_event_type w = 5 → s.current_base_x + 8 ≤ 65535 →
      (decode_buffer s [w] [] []).2.1 =
        ((List.range 8).filter (fun i => (vect_8_get_valid w).testBit i)).map
          (fun i => ⟨s.current_base_x + i, s.current_y, s.current_polarity, s.current_time⟩) ∧
      (decode_buffer s [w] [] []).2.1.length = popcount (vect_8_get_valid w) ∧
      (decode_buffer s [w] [] []).1.current_base_x = s.current_base_x + 8) ∧
    (get_event_type w = 2 →
      (decode_buffer s [w] [] []).2.1 =
        [⟨addr_x_get_x w, s.current_y, addr_x_get_polarity w, s.current_time⟩]) ∧
    (get_event_type w ≠ 2 → get_event_type w ≠ 4 → get_event_type w ≠ 5 →
      (decode_buffer s [w] [] []).2.1 = []) := by
  refine ⟨?_, ?_, ?_, ?_⟩
  · intro h4 hov
    rw [decode_buffer_single s w hs]
    obtain ⟨hcd, hbase⟩ := step_vect12 s w h4 hov
    refine ⟨hcd, ?_, hbase⟩
    show (stepCd s w).length = _
    rw [hcd, List.length_map]
    refine length_filter_testBit 12 _ ?_
    calc vect_12_get_valid w ≤ 0x0FFF := Nat.and_le_right
      _ < 2 ^ 12 := by norm_num
  · intro h5 hov
    rw [decode_buffer_single s w hs]
    obtain ⟨hcd, hbase⟩ := step_vect8 s w h5 hov
    refine ⟨hcd, ?_, hbase⟩
    show (stepCd s w).length = _
    rw [hcd, List.length_map]
    refine length_filter_testBit 8 _ ?_
    calc vect_8_get_valid w ≤ 0x00FF := Nat.and_le_right
      _ < 2 ^ 8 := by norm_num
  · intro h2
    rw [decode_buffer_single s w hs]
    exact step_addrX s w h2
  · intro hn2 hn4 hn5
    rw [decode_buffer_single s w hs]
    exact stepCd_other_types s w hn2 hn4 hn5

/-- Claim C2, witness: the vector-burst scenario of the specification,
run through the amended theorem at a concrete armed decoder. -/
theorem C2_witness :
    ({ initDecoder with first_time_base_set := true } : DecoderState).first_time_base_set = true ∧
    (decode_buffer { initDecoder with first_time_base_set := true } [0x4E38] [] []).2.1.length =
      popcount (vect_12_get_valid 0x4E38) ∧
    (decode_buffer { initDecoder with first_time_base_set := true } [0x4E38] [] []).1.current_base_x = 12 := by
  refine ⟨rfl, ?_, ?_⟩
  · exact ((C2_word_emissions { initDecoder with first_time_base_set := true } 0x4E38 rfl).1
      (by decide) (by decide)).2.1
  · have h := ((C2_word_emissions { initDecoder with first_time_base_set := true } 0x4E38 rfl).1
      (by decide) (by decide)).2.2
    simpa using h

/-- Claim C3: with the decoder not yet armed, a buffer consisting of
non-TIME_HIGH words followed by a TIME_HIGH and a tail decodes exactly as
the tail decoded from the armed state `time_base = value <<< 12 =
current_time`, flag set — so the words before the first TIME_HIGH emit
nothing; and a buffer with no TIME_HIGH at all leaves state and sinks
untouched (in particular, fed to a fresh decoder the sinks remain empty). -/
theorem C3_preroll (s : DecoderState) (cd : List CdEvent) (tr : List TriggerEvent)
    (ws1 : List Nat) (thw : Nat) (ws2 : List Nat)
    (hf : s.first_time_base_set = false)
    (hpre : ∀ w ∈ ws1, get_event_type w ≠ 8) (hth : get_event_type thw = 8) :
    decode_buffer s (ws1 ++ thw :: ws2) cd tr =
      decode_words { s with
        time_base := (time_get_value thw) <<< 12
        current_time := (time_get_value thw) <<< 12
        first_time_base_set := true } ws2 cd tr ∧
    decode_buffer s ws1 cd tr = (s, cd, tr) := by
  constructor
  · rw [decode_buffer, if_neg (by simp [hf]), skipPreroll_found ws1 thw ws2 s hpre hth]
  · rw [decode_buffer, if_neg (by simp [hf]), skipPreroll_not_found ws1 s hpre]
    rfl

/-- Claim C3, witness: the pre-roll discard scenario of the specification. -/
theorem C3_witness :
    decode_buffer initDecoder [0x0032, 0x2864, 0x8FFF, 0x6064] [] [] =
      decode_words { initDecoder with
        time_base := (time_get_value 0x8FFF) <<< 12
        current_time := (time_get_value 0x8FFF) <<< 12
        first_time_base_set := true } [0x6064] [] [] ∧
    decode_buffer initDecoder [0x0032, 0x2864] [] [] = (initDecoder, [], []) := by
  have h := C3_preroll initDecoder [] [] [0x0032, 0x2864] 0x8FFF [0x6064] rfl
    (by decide) (by decide)
  exact h

/-- Claim C4: on an armed decoder a TIME_HIGH word computes the candidate
`(value <<< 12) + n_time_high_loops * 16777216`; when `time_base` exceeds
it by at least `16773120 - 40960` the loop counter is incremented and the
candidate raised by another `16777216`; either way `time_base` and
`current_time` become the candidate and nothing is emitted.  In particular
a TIME_HIGH 0 right after a TIME_HIGH 0xFFF on a fresh decoder yields
`n_time_high_loops = 1` and `time_base = current_time = 16777216`. -/
theorem C4_time_high (s : DecoderState) (w : Nat)
    (hs : s.first_time_base_set = true) (h8 : get_event_type w = 8) :
    ((s.time_base > (time_get_value w <<< 12) + s.n_time_high_loops * 16777216 ∧
      s.time_base - ((time_get_value w <<< 12) + s.n_time_high_loops * 16777216) ≥
        16773120 - 40960) →
      (decode_buffer s [w] [] []).1 =
        { s with
          time_base := (time_get_value w <<< 12) + s.n_time_high_loops * 16777216 + 16777216
          current_time := (time_get_value w <<< 12) + s.n_time_high_loops * 16777216 + 16777216
          n_time_high_loops := s.n_time_high_loops + 1 }) ∧
    (¬ ((s.time_base > (time_get_value w <<< 12) + s.n_time_high_loops * 16777216 ∧
      s.time_base - ((time_get_value w <<< 12) + s.n_time_high_loops * 16777216) ≥
        16773120 - 40960)) →
      (decode_buffer s [w] [] []).1 =
        { s with
          time_base := (time_get_value w <<< 12) + s.n_time_high_loops * 16777216
          current_time := (time_get_value w <<< 12) + s.n_time_high_loops * 16777216 }) ∧
    (decode_buffer s [w] [] []).2.1 = [] ∧
    (decode_buffer s [w] [] []).2.2 = [] ∧
    (decode_buffer initDecoder [0x8FFF, 0x8000] [] []).1.n_time_high_loops = 1 ∧
    (decode_buffer initDecoder [0x8FFF, 0x8000] [] []).1.time_base = 16777216 ∧
    (decode_buffer initDecoder [0x8FFF, 0x8000] [] []).1.current_time = 16777216 := by
  have hTL : TIME_LOOP = 16777216 := by decide
  have hMB : MAX_TIMESTAMP_BASE = 16773120 := by decide
  have hLT : LOOP_THRESHOLD = 40960 := by decide
  refine ⟨?_, ?_, ?_, ?_, by decide, by decide, by decide⟩
  · intro hcond
    rw [decode_buffer_single s w hs]
    show stepState s w = _
    rw [(step_timeHigh s w h8).1]
    unfold process_time_high
    dsimp only
    rw [hTL, hMB, hLT, if_pos hcond]
  · intro hcond
    rw [decode_buffer_single s w hs]
    show stepState s w = _
    rw [(step_timeHigh s w h8).1]
    unfold process_time_high
    dsimp only
    rw [hTL, hMB, hLT, if_neg hcond]
  · rw [decode_buffer_single s w hs]
    exact (step_timeHigh s w h8).2.1
  · rw [decode_buffer_single s w hs]
    exact (step_timeHigh s w h8).2.2

/-- Claim C4, witness: a concrete armed state in which the wrap condition
fires, run through the theorem. -/
theorem C4_witness :
    (decode_buffer { initDecoder with first_time_base_set := true, time_base := 16773120 }
        [0x8000] [] []).1 =
      { initDecoder with
        time_base := 16777216
        current_time := 16777216
        n_time_high_loops := 1
        first_time_base_set := true } := by
  have h := (C4_time_high
    { initDecoder with first_time_base_set := true, time_base := 16773120 }
    0x8000 rfl (by decide)).1 (by decide)
  rw [h]
  decide

/-- Claim C5: buffer-chunking independence — decoding a word sequence in one
`decode_buffer` call produces exactly the same decoder state and event
sequences as decoding the prefix up to any split point and then the rest in
two calls on the same sinks. -/
theorem C5_chunking_independence (ws : List Nat) (k : Nat) :
    decode_buffer initDecoder ws [] [] =
      decode_buffer (decode_buffer initDecoder (ws.take k) [] []).1 (ws.drop k)
        (decode_buffer initDecoder (ws.take k) [] []).2.1
        (decode_buffer initDecoder (ws.take k) [] []).2.2 := by
  conv_lhs => rw [← List.take_append_drop k ws]
  exact decode_buffer_append initDecoder (ws.take k) (ws.drop k) [] []

/-- Claim C6: `reset` returns every cursor and clock field to its initial
value while keeping the metadata, and decoding any word sequence after a
reset into fresh sinks emits exactly what a newly created decoder emits. -/
theorem C6_reset_replay (d : DecoderState) (ws : List Nat) :
    (reset d).time_base = 0 ∧ (reset d).time_low = 0 ∧ (reset d).current_time = 0 ∧
    (reset d).n_time_high_loops = 0 ∧ (reset d).first_time_base_set = false ∧
    (reset d).current_y = 0 ∧ (reset d).current_base_x = 0 ∧
    (reset d).current_polarity = 0 ∧
    (reset d).width = d.width ∧ (reset d).height = d.height ∧
    (decode_buffer (reset d) ws [] []).2.1 = (decode_buffer initDecoder ws [] []).2.1 ∧
    (decode_buffer (reset d) ws [] []).2.2 = (decode_buffer initDecoder ws [] []).2.2 := by
  have hr : reset d = { initDecoder with width := d.width, height := d.height } := rfl
  refine ⟨rfl, rfl, rfl, rfl, rfl, rfl, rfl, rfl, rfl, rfl, ?_, ?_⟩
  · rw [hr, decode_buffer_meta]
  · rw [hr, decode_buffer_meta]

/-- Claim C7, counterexample: after arming, VECT_BASE_X with column 2047
followed by VECT_12 with the full mask emits CD events with x up to 2058,
so an emitted x coordinate can exceed 2047 (the decoder emits vector bursts
verbatim without bounds enforcement). -/
theorem C7_counterexample :
    ((decode_buffer initDecoder [0x8000, 0x37FF, 0x4FFF] [] []).2.1).map (fun e => e.x) =
      [2047, 2048, 2049, 2050, 2051, 2052, 2053, 2054, 2055, 2056, 2057, 2058] ∧
    ¬ (∀ e ∈ (decode_buffer initDecoder [0x8000, 0x37FF, 0x4FFF] [] []).2.1,
        e.x ≤ 2047) := by
  decide

/-- Claim C7, amended: every CD event a fresh decoder ever pushes has
y in 0..2047 and polarity 0 or 1, and its x fits in a `u16`
(0..65535) — but x is not bounded by 2047 in general. -/
theorem C7_field_bounds (ws : List Nat) :
    ∀ e ∈ (decode_buffer initDecoder ws [] []).2.1,
      e.y ≤ 2047 ∧ e.polarity ≤ 1 ∧ e.x ≤ 65535 := by
  intro e he
  rw [decode_buffer, if_neg (by decide)] at he
  refine decode_words_bounds _ _ [] [] ?_ ?_ (by simp) e he
  · rw [(skipPreroll_cursor ws initDecoder).1]
    decide
  · rw [(skipPreroll_cursor ws initDecoder).2.1]
    decide

/-- Claim C7, witness: a concrete emitted event checked through the amended
theorem. -/
theorem C7_witness :
    (⟨100, 50, 1, 100⟩ : CdEvent) ∈
      (decode_buffer initDecoder [0x8000, 0x6064, 0x0032, 0x2864] [] []).2.1 ∧
    ((⟨100, 50, 1, 100⟩ : CdEvent).y ≤ 2047 ∧
     (⟨100, 50, 1, 100⟩ : CdEvent).polarity ≤ 1 ∧
     (⟨100, 50, 1, 100⟩ : CdEvent).x ≤ 65535) :=
  ⟨by decide,
    C7_field_bounds [0x8000, 0x6064, 0x0032, 0x2864] ⟨100, 50, 1, 100⟩ (by decide)⟩

/-- Claim C8: a geometry header line updates width and height together when
both fields parse, and leaves the metadata exactly unchanged when the
separator is absent or either field fails to parse. -/
theorem C8_geometry_atomic (s : DecoderState) (line g : List Char)
    (hg : trimEnd line = geomMarker ++ g) :
    (∀ i w h, g.findIdx? (· = 'x') = some i →
        parseU32 (g.take i) = some w → parseU32 (g.drop (i + 1)) = some h →
        parse_header_line s line = { s with width := w, height := h }) ∧
    (g.findIdx? (· = 'x') = none → parse_header_line s line = s) ∧
    (∀ i, g.findIdx? (· = 'x') = some i → parseU32 (g.take i) = none →
        parse_header_line s line = s) ∧
    (∀ i, g.findIdx? (· = 'x') = some i → parseU32 (g.drop (i + 1)) = none →
        parse_header_line s line = s) := by
  have hfmt : stripPrefixChars fmtMarker (geomMarker ++ g) = none := rfl
  refine ⟨?_, ?_, ?_, ?_⟩
  · intro i w h hi hw hh
    simp only [parse_header_line, hg, hfmt, stripPrefixChars_self_append, hi, hw, hh]
  · intro hn
    simp only [parse_header_line, hg, hfmt, stripPrefixChars_self_append, hn]
  · intro i hi hw
    simp only [parse_header_line, hg, hfmt, stripPrefixChars_self_append, hi, hw]
  · intro i hi hh
    rcases hp : parseU32 (g.take i) with _ | w
    · simp only [parse_header_line, hg, hfmt, stripPrefixChars_self_append, hi, hp]
    · simp only [parse_header_line, hg, hfmt, stripPrefixChars_self_append, hi, hp, hh]

/-- Claim C8, witness: the geometry line of the unit tests, parsed through
the theorem. -/
theorem C8_witness :
    parse_header_line initDecoder
        ['%', ' ', 'g', 'e', 'o', 'm', 'e', 't', 'r', 'y', ' ', '3', '2', '0', 'x', '2', '4', '0'] =
      { initDecoder with width := 320, height := 240 } :=
  (C8_geometry_atomic initDecoder
      ['%', ' ', 'g', 'e', 'o', 'm', 'e', 't', 'r', 'y', ' ', '3', '2', '0', 'x', '2', '4', '0']
      ['3', '2', '0', 'x', '2', '4', '0'] (by decide)).1
    3 320 240 (by decide) (by decide) (by decide)

/-- Claim C9: `decode_buffer` only appends to its two sinks — the result is
the old contents followed by the newly emitted events, which do not depend
on what the sinks already held. -/
theorem C9_sinks_append_only (s : DecoderState) (ws : List Nat)
    (cd : List CdEvent) (tr : List TriggerEvent) :
    decode_buffer s ws cd tr =
      ((decode_buffer s ws [] []).1, cd ++ (decode_buffer s ws [] []).2.1,
       tr ++ (decode_buffer s ws [] []).2.2) :=
  decode_buffer_frame s ws cd tr

/-- Arming a fresh decoder with TIME_HIGH 0 and then feeding 5461 VECT_12
words with empty masks drives `current_base_x` to 65532 without emitting
anything. -/
theorem decode_buffer_vect12_run :
    decode_buffer initDecoder (0x8000 :: List.replicate 5461 0x4000) [] [] =
      ({ initDecoder with first_time_base_set := true, current_base_x := 65532 }, [], []) := by
  have h1 : decode_buffer initDecoder (0x8000 :: List.replicate 5461 0x4000) [] [] =
      decode_words { initDecoder with first_time_base_set := true }
        (List.replicate 5461 0x4000) [] [] := by
    rw [decode_buffer, if_neg (by decide), skipPreroll, if_pos (by decide)]
    rfl
  rw [h1, decode_words_replicate_vect12 5461 _ [] [] (by decide)]
  decide

/-- Claim C10: the `u16` advance `current_base_x + count` in
`process_vector_events` is unchecked and can overflow — after arming, 5461
VECT_12 words drive `current_base_x` to 65532, above `65535 - 12`; the next
VECT_12 wraps the base column modulo `2 ^ 16` to 8 (emitting nothing, since
the wrapped Rust range is empty), and the VECT_12 after it emits events with
x = 8..19: the emitted columns wrap back to small values instead of
continuing to increase. -/
theorem C10_base_x_overflow :
    (decode_buffer initDecoder (0x8000 :: List.replicate 5461 0x4000) [] []).1.current_base_x
        = 65532 ∧
    65535 - 12 < 65532 ∧
    (decode_buffer initDecoder (0x8000 :: List.replicate 5461 0x4000) [] []).2.1 = [] ∧
    (decode_buffer
        (decode_buffer initDecoder (0x8000 :: List.replicate 5461 0x4000) [] []).1
        [0x4FFF] [] []).2.1 = [] ∧
    (decode_buffer
        (decode_buffer initDecoder (0x8000 :: List.replicate 5461 0x4000) [] []).1
        [0x4FFF] [] []).1.current_base_x = 8 ∧
    ((decode_buffer
        (decode_buffer
          (decode_buffer initDecoder (0x8000 :: List.replicate 5461 0x4000) [] []).1
          [0x4FFF] [] []).1
        [0x4FFF] [] []).2.1).map (fun e => e.x) =
      [8, 9, 10, 11, 12, 13, 14, 15, 16, 17, 18, 19] := by
  rw [decode_buffer_vect12_run]
  refine ⟨rfl, by decide, rfl, ?_, ?_, ?_⟩ <;> decide
